import Mathlib

/-!
Shallow embedding of the Dolls network front end (crates/network) and proofs
about its wire codec, packet framer, handler registry, connection session and
server start-up guard.

Modelling conventions:
* A TCP stream is a finite list of byte values (`List Nat`, each `< 256` on
  real inputs); `read_exact` succeeds exactly when enough bytes remain.
* Machine integers are `Nat` with explicit `% 2 ^ 32` where u32 overflow
  matters.  The unchecked u32 subtraction `length - packet_id_size` in
  `next_packet` is embedded with its two's-complement wrap-around value
  `(length + 2 ^ 32 - packet_id_size) % 2 ^ 32` (Rust release profile).
* A Rust panic (a failed `unwrap`, an out-of-bounds index) is the distinguished
  outcome `ParseOut.panicked`: it is not an error value returned to the caller.
-/

namespace Dolls

/-- Error type for parsing operations (enum `ParsingError` in io/parser.rs).
The `ioError` case stands for any propagated I/O error, in this model the
stream running out of bytes. -/
inductive ParsingError where
  | ioError
  | varIntTooBig
  | varLongTooBig
  | invalidUtf8
  | jsonError
  | identifierTooLong (s : String)
  | uuidError
deriving DecidableEq, Repr

/-- Outcome of running one reader on a byte stream: a value together with the
unread remainder of the stream, a propagated `ParsingError`, or a Rust panic. -/
inductive ParseOut (α : Type) where
  | ok (value : α) (rest : List Nat)
  | error (e : ParsingError)
  | panicked
deriving DecidableEq, Repr

/-- Loop body of `read_varint` (io/parser.rs, lines 45-69): `value` and
`position` are the loop accumulators; each byte contributes its low 7 bits
(`current_byte & SEGMENT_BITS`) at the current bit offset, the high bit
(`CONTINUE_BIT`) asks for another byte, and an offset reaching 32 after a
continuation byte is the VarInt-too-big error.  The `|=` on a u32 is embedded
with an explicit `% 2 ^ 32`. -/
def read_varint_aux : List Nat → Nat → Nat → ParseOut Nat
  | [], _, _ => .error .ioError
  | current_byte :: rest, value, position =>
    let value := (value ||| ((current_byte &&& 127) <<< position)) % 2 ^ 32
    if current_byte &&& 128 = 0 then .ok value rest
    else if position + 7 ≥ 32 then .error .varIntTooBig
    else read_varint_aux rest value (position + 7)

/-- `read_varint` (io/parser.rs): decode a VarInt from the stream head. -/
def read_varint (s : List Nat) : ParseOut Nat :=
  read_varint_aux s 0 0

/-- Loop body of `read_varint_and_get_size` (io/parser.rs, lines 76-101):
identical to `read_varint_aux` plus the `size` counter incremented once per
byte read. -/
def read_varint_size_aux : List Nat → Nat → Nat → Nat → ParseOut (Nat × Nat)
  | [], _, _, _ => .error .ioError
  | current_byte :: rest, value, position, size =>
    let size := size + 1
    let value := (value ||| ((current_byte &&& 127) <<< position)) % 2 ^ 32
    if current_byte &&& 128 = 0 then .ok (value, size) rest
    else if position + 7 ≥ 32 then .error .varIntTooBig
    else read_varint_size_aux rest value (position + 7) size

/-- `read_varint_and_get_size` (io/parser.rs): VarInt value plus the number of
bytes it occupied on the wire. -/
def read_varint_and_get_size (s : List Nat) : ParseOut (Nat × Nat) :=
  read_varint_size_aux s 0 0 0

/-- `read_exact_bytes` (io/parser.rs, lines 133-137): read exactly `size`
bytes; a short stream is the propagated I/O error of `read_exact`. -/
def read_exact_bytes (s : List Nat) (size : Nat) : ParseOut (List Nat) :=
  if size ≤ s.length then .ok (s.take size) (s.drop size) else .error .ioError

/-- `RawPacket` (io/packet/raw.rs, lines 7-12). -/
structure RawPacket where
  size_in_bytes : Nat
  packet_id : Nat
  payload : List Nat
deriving DecidableEq, Repr

/-- `PacketHandler::next_packet` (io/packet.rs, lines 27-37): decode the
declared frame length, the packet id together with its encoded size, then
`data_length = length - packet_id_size` — an unchecked u32 subtraction,
embedded as its wrap-around value — and finally exactly `data_length` payload
bytes. -/
def next_packet (s : List Nat) : ParseOut RawPacket :=
  match read_varint s with
  | .error e => .error e
  | .panicked => .panicked
  | .ok length s1 =>
    match read_varint_and_get_size s1 with
    | .error e => .error e
    | .panicked => .panicked
    | .ok (packet_id, packet_id_size) s2 =>
      let data_length := (length + 2 ^ 32 - packet_id_size) % 2 ^ 32
      match read_exact_bytes s2 data_length with
      | .error e => .error e
      | .panicked => .panicked
      | .ok payload s3 => .ok ⟨length, packet_id, payload⟩ s3

/-- A UTF-8 continuation byte: `0x80 ≤ b ≤ 0xBF`. -/
def utf8Cont (b : Nat) : Bool := 128 ≤ b && b < 192

/-- Validity of a byte sequence as UTF-8, exactly the check performed by
`String::from_utf8`: ASCII bytes stand alone; `0xC2-0xDF` lead a 2-byte
sequence; `0xE0-0xEF` lead a 3-byte sequence (with the narrowed first
continuation ranges that exclude overlong forms and surrogates); `0xF0-0xF4`
lead a 4-byte sequence (narrowed at `0xF0` and `0xF4`); everything else —
stray continuations, overlong leads `0xC0`/`0xC1`, and `0xF5-0xFF` — is
invalid. -/
def validUtf8 : List Nat → Bool
  | [] => true
  | b :: rest =>
    if b < 128 then validUtf8 rest
    else if b < 194 then false
    else if b < 224 then
      match rest with
      | c1 :: r => utf8Cont c1 && validUtf8 r
      | [] => false
    else if b < 240 then
      match rest with
      | c1 :: c2 :: r =>
        (if b = 224 then decide (160 ≤ c1) && decide (c1 < 192)
         else if b = 237 then decide (128 ≤ c1) && decide (c1 < 160)
         else utf8Cont c1) && utf8Cont c2 && validUtf8 r
      | _ => false
    else if b < 245 then
      match rest with
      | c1 :: c2 :: c3 :: r =>
        (if b = 240 then decide (144 ≤ c1) && decide (c1 < 192)
         else if b = 244 then decide (128 ≤ c1) && decide (c1 < 144)
         else utf8Cont c1) && utf8Cont c2 && utf8Cont c3 && validUtf8 r
      | _ => false
    else false

/-- `read_string` (io/parser.rs, lines 268-273): a VarInt byte-length prefix,
that many raw bytes, then `String::from_utf8(buffer).unwrap()` — the source
calls `.unwrap()` on the conversion, so an invalid byte sequence is a panic,
not a returned `ParsingError`.  The decoded string is represented by its
byte sequence. -/
def read_string (s : List Nat) : ParseOut (List Nat) :=
  match read_varint s with
  | .error e => .error e
  | .panicked => .panicked
  | .ok length s1 =>
    match read_exact_bytes s1 length with
    | .error e => .error e
    | .panicked => .panicked
    | .ok buffer s2 =>
      if validUtf8 buffer then .ok buffer s2 else .panicked

/-- The inner loop of both bitset readers: push `(byte >> i) & 1 == 1` for
`i` in `0..8`. -/
def bitsOfByte (byte : Nat) : List Bool :=
  (List.range 8).map (fun i => (byte >>> i) &&& 1 == 1)

/-- `read_bitset` (io/parser.rs, lines 367-378): a VarInt `length`, then —
as written in the source — `vec![0u8; length as usize]` filled by
`read_exact`, i.e. `length` single bytes, each expanded to 8 booleans. -/
def read_bitset (s : List Nat) : ParseOut (List Bool) :=
  match read_varint s with
  | .error e => .error e
  | .panicked => .panicked
  | .ok length s1 =>
    match read_exact_bytes s1 length with
    | .error e => .error e
    | .panicked => .panicked
    | .ok buffer s2 => .ok (buffer.flatMap bitsOfByte) s2

/-- `read_fixed_bitset` (io/parser.rs, lines 388-398): as written in the
source, `vec![0u8; size]` filled by `read_exact` — `size` bytes, not
`ceil(size / 8)` — each expanded to 8 booleans. -/
def read_fixed_bitset (s : List Nat) (size : Nat) : ParseOut (List Bool) :=
  match read_exact_bytes s size with
  | .error e => .error e
  | .panicked => .panicked
  | .ok buffer s2 => .ok (buffer.flatMap bitsOfByte) s2

/-- The u32 bit pattern of a big-endian 4-byte group (`i32::from_be_bytes`). -/
def u32_from_be (b0 b1 b2 b3 : Nat) : Nat :=
  (b0 <<< 24) ||| (b1 <<< 16) ||| (b2 <<< 8) ||| b3

/-- `x as u64` on an i32 whose u32 bit pattern is `x`: sign extension. -/
def i32_as_u64 (x : Nat) : Nat :=
  if x < 2 ^ 31 then x else x + (2 ^ 64 - 2 ^ 32)

/-- `read_position` (io/parser.rs, lines 328-336): fills an 8-byte buffer,
then indexes `buffer[0..3]`, `buffer[4..7]` — and `buffer[8..11]`, past the
end of the 8-byte array.  Each index is embedded as `List.get?` on the
buffer; an out-of-range index is a Rust bounds-check panic, so the whole
access chain is sequenced in `Option` with `none` mapped to `panicked`. -/
def read_position (s : List Nat) : ParseOut Nat :=
  if 8 ≤ s.length then
    let buffer := s.take 8
    let packed : Option Nat := do
      let b0 ← buffer.get? 0
      let b1 ← buffer.get? 1
      let b2 ← buffer.get? 2
      let b3 ← buffer.get? 3
      let b4 ← buffer.get? 4
      let b5 ← buffer.get? 5
      let b6 ← buffer.get? 6
      let b7 ← buffer.get? 7
      let b8 ← buffer.get? 8
      let b9 ← buffer.get? 9
      let b10 ← buffer.get? 10
      let b11 ← buffer.get? 11
      let x := u32_from_be b0 b1 b2 b3
      let y := u32_from_be b4 b5 b6 b7
      let z := u32_from_be b8 b9 b10 b11
      pure ((i32_as_u64 x &&& 0x3FFFFFFF) |||
            ((i32_as_u64 y &&& 0x3FFF) <<< 38) |||
            ((i32_as_u64 z &&& 0x3FFFFFFF) <<< 12))
    match packed with
    | some position => .ok position (s.drop 8)
    | none => .panicked
  else .error .ioError

/-- `HashMap::insert` on the handler table (io/packet/processor.rs), modelled
on an association list: the new binding replaces any previous binding of the
same key. -/
def insertHandler {H : Type} (m : List (Nat × H)) (key : Nat) (val : H) :
    List (Nat × H) :=
  (key, val) :: m.filter (fun p => p.1 != key)

/-- `init_packet_processors` (io/packet/processor.rs, lines 29-35): if the
handler table is empty, insert every collected registration; otherwise leave
the table untouched.  `regs` is the static set of
`PacketProcessorRegistration` values collected by `inventory`. -/
def init_packet_processors {H : Type} (regs : List (Nat × H))
    (m : List (Nat × H)) : List (Nat × H) :=
  if m.isEmpty then regs.foldl (fun acc r => insertHandler acc r.1 r.2) m else m

/-- `get_handler` (io/packet/processor.rs, lines 37-39): table lookup. -/
def get_handler {H : Type} (m : List (Nat × H)) (packet_id : Nat) : Option H :=
  m.lookup packet_id

/-- A dispatch-time handler table, as `get_handler` presents it to the worker
loop: packet id to optional handler function.  A handler takes the packet by
value and either succeeds or reports its own error (`anyhow::Result<()>`). -/
def Handlers : Type := Nat → Option (RawPacket → Except String Unit)

/-- State of one Connection Session (the worker task spawned in
`DollNetworkServer::create_new_worker`, server.rs lines 54-74): still reading
from the remaining stream, ended because `next_packet` returned an error
(the `while let Ok` loop exits), or aborted by a panic inside framing. -/
inductive SessionState where
  | Reading (s : List Nat)
  | Closed
  | Panicked
deriving DecidableEq, Repr

/-- What one loop iteration logs: a handled packet, a handler that returned
an error (`error!("Error processing packet: ...")`), or an unroutable id
(`error!("Unexpected packet...")`). -/
inductive DispatchEvent where
  | handled (id : Nat)
  | handlerError (id : Nat) (msg : String)
  | unknownPacket (id : Nat)
deriving DecidableEq, Repr

/-- One iteration of the worker loop in `create_new_worker` (server.rs,
lines 64-72): frame a packet with `next_packet`; on success look up the
handler and invoke it, logging a handler error or an unknown id without
touching the loop; on a framing error the `while let` loop ends the
session. -/
def session_step (h : Handlers) : SessionState → SessionState × List DispatchEvent
  | .Reading s =>
    match next_packet s with
    | .ok packet rest =>
      match h packet.packet_id with
      | some func =>
        match func packet with
        | .ok _ => (.Reading rest, [.handled packet.packet_id])
        | .error err => (.Reading rest, [.handlerError packet.packet_id err])
      | none => (.Reading rest, [.unknownPacket packet.packet_id])
    | .error _ => (.Closed, [])
    | .panicked => (.Panicked, [])
  | .Closed => (.Closed, [])
  | .Panicked => (.Panicked, [])

/-- `DollNetworkServer` (server.rs, lines 13-18): the fields fixed at
construction plus the `is_running` flag.  The worker-handle list plays no
role in the claims and is omitted. -/
structure DollNetworkServer where
  ip_address : Nat × Nat × Nat × Nat
  port : Nat
  is_running : Bool
deriving DecidableEq, Repr

/-- `DollNetworkServer::new` (server.rs, lines 27-34): `is_running` starts
false. -/
def DollNetworkServer.new (ip_addr : Nat × Nat × Nat × Nat) (port : Nat) :
    DollNetworkServer :=
  ⟨ip_addr, port, false⟩

/-- Outcome of `accept` (server.rs, lines 36-52): the guard
`critical! + panic!` when `is_running` is already set, or the accept loop
running with the flag set and the registry initialised. -/
inductive AcceptOutcome (H : Type) where
  | fatalAlreadyRunning
  | accepting (server : DollNetworkServer) (handlers : List (Nat × H))

/-- `DollNetworkServer::accept` (server.rs, lines 36-52): check the
`is_running` flag — a second start is fatal — then initialise the packet
registry and set the flag before entering the accept loop. -/
def DollNetworkServer.accept {H : Type} (regs : List (Nat × H))
    (self : DollNetworkServer) (handlers : List (Nat × H)) : AcceptOutcome H :=
  if self.is_running then .fatalAlreadyRunning
  else .accepting { self with is_running := true }
    (init_packet_processors regs handlers)

/-- The canonical LEB128-like VarInt encoding described by the spec (§6):
low-order 7-bit group first, continuation flag in the high bit of every byte
except the last. -/
def encodeVarInt (v : Nat) : List Nat :=
  if v < 128 then [v] else (v % 128 + 128) :: encodeVarInt (v / 128)
termination_by v
decreasing_by exact Nat.div_lt_self (by omega) (by omega)

/-! ### Helper lemmas -/

/-- Bitwise-or of disjoint ranges is addition. -/
theorem lor_mul_pow {a b n : Nat} (h : a < 2 ^ n) :
    a ||| b * 2 ^ n = a + b * 2 ^ n := by
  have hb0 : (0 : Nat) < 2 ^ n := Nat.two_pow_pos n
  apply Nat.eq_of_testBit_eq
  intro i
  have hadd : a + b * 2 ^ n = 2 ^ n * b + a := by ring
  have hmul : b * 2 ^ n = 2 ^ n * b + 0 := by ring
  rw [Nat.testBit_lor, hadd, Nat.testBit_mul_pow_two_add b h i, hmul,
      Nat.testBit_mul_pow_two_add b hb0 i]
  by_cases hi : i < n
  · simp [hi]
  · have hfa : a.testBit i = false :=
      Nat.testBit_lt_two_pow
        (lt_of_lt_of_le h (Nat.pow_le_pow_right (by norm_num) (by omega)))
    simp [hi, hfa]

/-- `x & 0x7F` keeps the low 7 bits. -/
theorem land_127 (x : Nat) : x &&& 127 = x % 128 := by
  simpa using Nat.and_pow_two_sub_one_eq_mod x 7

/-- A byte below `0x80` has the continuation bit clear. -/
theorem land_128_eq_zero {x : Nat} (h : x < 128) : x &&& 128 = 0 := by
  have h7 : x.testBit 7 = false := Nat.testBit_lt_two_pow (by norm_num; omega)
  have := Nat.and_two_pow x 7
  norm_num [h7] at this
  exact this

/-- Adding `0x80` to a 7-bit group sets the continuation bit. -/
theorem land_128_ne_zero {x : Nat} (h : x < 128) : (x + 128) &&& 128 ≠ 0 := by
  have h7 : (x + 128).testBit 7 = true := by
    rw [Nat.testBit_to_div_mod]
    norm_num
    omega
  have := Nat.and_two_pow (x + 128) 7
  norm_num [h7] at this
  omega

/-- Decoding the canonical encoding from any consistent loop state recovers
the encoded value at the current bit offset. -/
theorem read_varint_aux_encodeVarInt :
    ∀ (v value position : Nat) (rest : List Nat),
      position % 7 = 0 → position ≤ 28 → v < 2 ^ (32 - position) →
      value < 2 ^ position →
      read_varint_aux (encodeVarInt v ++ rest) value position =
        .ok (value + v * 2 ^ position) rest := by
  intro v
  induction v using Nat.strong_induction_on with
  | _ v ih =>
    intro value position rest hp7 hp28 hv hval
    by_cases hlt : v < 128
    · rw [encodeVarInt, if_pos hlt]
      simp only [List.cons_append, List.nil_append, read_varint_aux]
      rw [if_pos (land_128_eq_zero hlt), land_127, Nat.mod_eq_of_lt hlt,
          Nat.shiftLeft_eq, lor_mul_pow hval]
      have hpow : 2 ^ (32 - position) * 2 ^ position = 2 ^ 32 := by
        rw [← pow_add]; congr 1; omega
      have hsum : value + v * 2 ^ position < 2 ^ 32 := by
        have h1 : value + v * 2 ^ position < (v + 1) * 2 ^ position := by
          have := Nat.add_lt_add_right hval (v * 2 ^ position)
          calc value + v * 2 ^ position < 2 ^ position + v * 2 ^ position := this
            _ = (v + 1) * 2 ^ position := by ring
        have h2 : (v + 1) * 2 ^ position ≤ 2 ^ (32 - position) * 2 ^ position :=
          Nat.mul_le_mul_right _ (by omega)
        calc value + v * 2 ^ position < (v + 1) * 2 ^ position := h1
          _ ≤ 2 ^ (32 - position) * 2 ^ position := h2
          _ = 2 ^ 32 := hpow
      rw [Nat.mod_eq_of_lt hsum]
      rfl
    · rw [encodeVarInt, if_neg hlt]
      simp only [List.cons_append, List.append_eq, read_varint_aux]
      have hm : v % 128 < 128 := Nat.mod_lt _ (by norm_num)
      have hple : position ≤ 21 := by
        by_contra hgt
        have hp : position = 28 := by omega
        rw [hp] at hv
        norm_num at hv
        omega
      rw [if_neg (land_128_ne_zero hm), if_neg (by omega : ¬ position + 7 ≥ 32),
          land_127]
      have hmm : (v % 128 + 128) % 128 = v % 128 := by omega
      rw [hmm, Nat.shiftLeft_eq, lor_mul_pow hval]
      have hstep : ∀ w : Nat, w ≤ 127 →
          value + w * 2 ^ position < 2 ^ (position + 7) := by
        intro w hw
        have h1 : value + w * 2 ^ position < (w + 1) * 2 ^ position := by
          calc value + w * 2 ^ position
              < 2 ^ position + w * 2 ^ position :=
                Nat.add_lt_add_right hval (w * 2 ^ position)
            _ = (w + 1) * 2 ^ position := by ring
        have h2 : (w + 1) * 2 ^ position ≤ 128 * 2 ^ position :=
          Nat.mul_le_mul_right _ (by omega)
        have h3 : (128 : Nat) * 2 ^ position = 2 ^ (position + 7) := by
          rw [pow_add]; ring_nf
        omega
      have hval' : value + v % 128 * 2 ^ position < 2 ^ (position + 7) :=
        hstep (v % 128) (by omega)
      have hlt32 : value + v % 128 * 2 ^ position < 2 ^ 32 := by
        have : (2 : Nat) ^ (position + 7) ≤ 2 ^ 32 :=
          Nat.pow_le_pow_right (by norm_num) (by omega)
        omega
      rw [Nat.mod_eq_of_lt hlt32]
      have hdiv : v / 128 < 2 ^ (32 - (position + 7)) := by
        rw [Nat.div_lt_iff_lt_mul (by norm_num : (0 : Nat) < 128)]
        calc v < 2 ^ (32 - position) := hv
          _ = 2 ^ (32 - (position + 7)) * 128 := by
            rw [show (128 : Nat) = 2 ^ 7 by norm_num, ← pow_add]
            congr 1; omega
      rw [ih (v / 128) (Nat.div_lt_self (by omega) (by norm_num))
            (value + v % 128 * 2 ^ position) (position + 7) rest
            (by omega) (by omega) hdiv hval']
      congr 1
      have hsplit : v % 128 + 128 * (v / 128) = v := Nat.mod_add_div v 128
      have : value + v % 128 * 2 ^ position + v / 128 * 2 ^ (position + 7) =
          value + (v % 128 + 128 * (v / 128)) * 2 ^ position := by
        rw [pow_add]; ring
      rw [this, hsplit]

/-- The canonical encoding of a value below `128 ^ (k + 1)` takes at most
`k + 1` bytes. -/
theorem encodeVarInt_length :
    ∀ (k v : Nat), v < 128 ^ (k + 1) → (encodeVarInt v).length ≤ k + 1 := by
  intro k
  induction k with
  | zero =>
    intro v hv
    rw [encodeVarInt, if_pos (by norm_num at hv; omega)]
    simp
  | succ k ih =>
    intro v hv
    by_cases hlt : v < 128
    · rw [encodeVarInt, if_pos hlt]; simp
    · rw [encodeVarInt, if_neg hlt]
      simp only [List.length_cons]
      have hdiv : v / 128 < 128 ^ (k + 1) := by
        rw [Nat.div_lt_iff_lt_mul (by norm_num : (0 : Nat) < 128)]
        calc v < 128 ^ (k + 1 + 1) := hv
          _ = 128 ^ (k + 1) * 128 := by ring
      have := ih _ hdiv
      omega

/-- A successfully decoded VarInt fits in 32 bits. -/
theorem read_varint_aux_lt :
    ∀ (s : List Nat) (value position v : Nat) (rest : List Nat),
      read_varint_aux s value position = .ok v rest → v < 2 ^ 32 := by
  intro s
  induction s with
  | nil => intro _ _ _ _ h; simp [read_varint_aux] at h
  | cons b s ih =>
    intro value position v rest h
    simp only [read_varint_aux] at h
    by_cases h1 : b &&& 128 = 0
    · rw [if_pos h1] at h
      injection h with hv _
      rw [← hv]
      exact Nat.mod_lt _ (by norm_num)
    · rw [if_neg h1] at h
      by_cases h2 : position + 7 ≥ 32
      · rw [if_pos h2] at h; simp at h
      · rw [if_neg h2] at h; exact ih _ _ _ _ h

/-- Characterisation of the size reported by `read_varint_and_get_size`:
it agrees with `read_varint` on the value and counts the consumed bytes. -/
theorem read_varint_size_aux_spec :
    ∀ (s : List Nat) (value position size v sz : Nat) (rest : List Nat),
      read_varint_size_aux s value position size = .ok (v, sz) rest →
      read_varint_aux s value position = .ok v rest ∧
        sz = size + (s.length - rest.length) ∧ rest.length ≤ s.length := by
  intro s
  induction s with
  | nil => intro _ _ _ _ _ _ h; simp [read_varint_size_aux] at h
  | cons b s ih =>
    intro value position size v sz rest h
    simp only [read_varint_size_aux] at h
    simp only [read_varint_aux]
    by_cases h1 : b &&& 128 = 0
    · rw [if_pos h1] at h
      rw [if_pos h1]
      injection h with hpair hrest
      injection hpair with hv hsz
      subst hv; subst hsz; subst hrest
      refine ⟨rfl, ?_, ?_⟩ <;> simp only [List.length_cons] <;> omega
    · rw [if_neg h1] at h
      rw [if_neg h1]
      by_cases h2 : position + 7 ≥ 32
      · rw [if_pos h2] at h; simp at h
      · rw [if_neg h2] at h
        rw [if_neg h2]
        obtain ⟨ha, hs, hl⟩ := ih _ _ _ _ _ _ h
        refine ⟨ha, ?_, ?_⟩ <;> simp only [List.length_cons] <;> omega

/-- `insertHandler` never produces the empty table. -/
theorem insertHandler_ne_nil {H : Type} (m : List (Nat × H)) (k : Nat) (v : H) :
    insertHandler m k v ≠ [] := by
  simp [insertHandler]

/-- Folding registrations over a non-empty table keeps it non-empty. -/
theorem foldl_insertHandler_ne_nil {H : Type} :
    ∀ (regs : List (Nat × H)) (m : List (Nat × H)), m ≠ [] →
      regs.foldl (fun acc r => insertHandler acc r.1 r.2) m ≠ [] := by
  intro regs
  induction regs with
  | nil => intro m h; simpa using h
  | cons r tl ih =>
    intro m _
    exact ih _ (insertHandler_ne_nil m r.1 r.2)

/-- Lookup ignores bindings filtered out for a different key. -/
theorem lookup_filter_ne {H : Type} (m : List (Nat × H)) (k id : Nat)
    (h : id ≠ k) :
    (m.filter (fun p => p.1 != k)).lookup id = m.lookup id := by
  induction m with
  | nil => simp
  | cons p tl ih =>
    rcases p with ⟨a, b⟩
    by_cases hak : a = k
    · subst hak
      simp only [List.filter_cons, bne_self_eq_false, Bool.false_eq_true,
        if_false, List.lookup]
      rw [ih]
      have : (id == a) = false := by simp [h]
      simp [this]
    · have hne : ((a, b).1 != k) = true := by simp [hak]
      simp only [List.filter_cons, hne, if_true, List.lookup]
      by_cases hia : id = a
      · subst hia; simp
      · have : (id == a) = false := by simp [hia]
        simp [this, ih]

/-- `get_handler` after `insertHandler`. -/
theorem get_insertHandler {H : Type} (m : List (Nat × H)) (k : Nat) (v : H)
    (id : Nat) :
    get_handler (insertHandler m k v) id =
      if id = k then some v else get_handler m id := by
  unfold get_handler insertHandler
  by_cases hik : id = k
  · subst hik; simp [List.lookup]
  · have : (id == k) = false := by simp [hik]
    simp only [List.lookup, this, if_neg hik]
    exact lookup_filter_ne m k id hik

/-- Folding registrations leaves unregistered ids untouched. -/
theorem get_foldl_not_mem {H : Type} :
    ∀ (regs : List (Nat × H)) (m : List (Nat × H)) (id : Nat),
      id ∉ regs.map Prod.fst →
      get_handler (regs.foldl (fun acc r => insertHandler acc r.1 r.2) m) id =
        get_handler m id := by
  intro regs
  induction regs with
  | nil => intro m id _; rfl
  | cons r tl ih =>
    intro m id hid
    simp only [List.map_cons, List.mem_cons, not_or] at hid
    rw [List.foldl_cons, ih _ _ hid.2, get_insertHandler, if_neg hid.1]

/-- Folding duplicate-free registrations makes every registered pair
retrievable. -/
theorem get_foldl_mem {H : Type} :
    ∀ (regs : List (Nat × H)) (m : List (Nat × H)) (id : Nat) (h : H),
      (regs.map Prod.fst).Nodup → (id, h) ∈ regs →
      get_handler (regs.foldl (fun acc r => insertHandler acc r.1 r.2) m) id =
        some h := by
  intro regs
  induction regs with
  | nil => intro m id h _ hmem; simp at hmem
  | cons r tl ih =>
    intro m id h hnd hmem
    simp only [List.map_cons, List.nodup_cons] at hnd
    rcases List.mem_cons.mp hmem with heq | htl
    · rcases r with ⟨a, b⟩
      injection heq with ha hb
      subst ha; subst hb
      rw [List.foldl_cons, get_foldl_not_mem _ _ _ hnd.1, get_insertHandler,
        if_pos rfl]
    · exact ih _ _ _ hnd.2 htl

/-- Composition rule for `next_packet`: the frame is assembled from the
declared length, the packet id with its encoded size, the wrapped
`data_length`, and the payload read. -/
theorem next_packet_ok (s s1 s2 : List Nat) (L id sz n : Nat)
    (payload rest : List Nat)
    (h1 : read_varint s = .ok L s1)
    (h2 : read_varint_and_get_size s1 = .ok (id, sz) s2)
    (h3 : (L + 2 ^ 32 - sz) % 2 ^ 32 = n)
    (h4 : read_exact_bytes s2 n = .ok payload rest) :
    next_packet s = .ok ⟨L, id, payload⟩ rest := by
  simp only [next_packet, h1, h2, h3, h4]

/-! ### Claim theorems -/

/-- C1: the claim says a declared frame length `L` smaller than the encoded
packet-id size makes `next_packet` fail with an error instead of panicking or
silently wrapping `L - id_size`.  The code has no such check: on the stream
`VarInt(1) || [0x80, 0x00] || junk` (declared length 1, packet id 0 encoded
in 2 bytes) the u32 subtraction `1 - 2` silently wraps to `2 ^ 32 - 1` and
`next_packet` happily succeeds, returning a bogus 4294967295-byte payload —
no error is produced at the underflow. -/
theorem c1_unchecked_underflow_wraps :
    next_packet (1 :: 128 :: 0 :: List.replicate 4294967295 0) =
      .ok ⟨1, 0, List.replicate 4294967295 0⟩ [] := by
  have h1 : ∀ t : List Nat, read_varint (1 :: t) = .ok 1 t := by
    intro t
    simp only [read_varint, read_varint_aux]
    rw [if_pos (by decide)]
    congr 1
  have h2 : ∀ t : List Nat,
      read_varint_and_get_size (128 :: 0 :: t) = .ok (0, 2) t := by
    intro t
    simp only [read_varint_and_get_size, read_varint_size_aux]
    rw [if_neg (by decide), if_neg (by decide : ¬ (0 : Nat) + 7 ≥ 32),
      if_pos (by decide)]
    congr 1
  have h4 : read_exact_bytes (List.replicate 4294967295 (0 : Nat)) 4294967295 =
      .ok (List.replicate 4294967295 0) [] := by
    simp only [read_exact_bytes, List.length_replicate, le_refl, if_true,
      List.take_replicate, List.drop_replicate, Nat.min_self, Nat.sub_self,
      List.replicate_zero]
  exact next_packet_ok _ _ _ 1 0 2 4294967295 _ _ (h1 _) (h2 _) (by norm_num) h4

/-- C2: VarInt round-trip — decoding the canonical LEB128-like encoding of
any `v < 2 ^ 32` yields `v` (and the canonical encoding is at most 5 bytes);
and any input whose first five bytes all carry the continuation bit (so the
bit offset reaches 32 before a terminating byte) fails with
VarInt-too-big. -/
theorem c2_varint_roundtrip_and_overflow :
    (∀ (v : Nat) (rest : List Nat), v < 2 ^ 32 →
      read_varint (encodeVarInt v ++ rest) = .ok v rest ∧
        (encodeVarInt v).length ≤ 5) ∧
    (∀ (b0 b1 b2 b3 b4 : Nat) (rest : List Nat),
      b0 &&& 128 ≠ 0 → b1 &&& 128 ≠ 0 → b2 &&& 128 ≠ 0 → b3 &&& 128 ≠ 0 →
      b4 &&& 128 ≠ 0 →
      read_varint (b0 :: b1 :: b2 :: b3 :: b4 :: rest) =
        .error .varIntTooBig) := by
  constructor
  · intro v rest hv
    constructor
    · have hrt := read_varint_aux_encodeVarInt v 0 0 rest (by norm_num)
        (by norm_num) (by simpa using hv) (by norm_num)
      simpa [read_varint] using hrt
    · exact encodeVarInt_length 4 v (lt_of_lt_of_le hv (by norm_num))
  · intro b0 b1 b2 b3 b4 rest h0 h1 h2 h3 h4
    simp [read_varint, read_varint_aux, h0, h1, h2, h3, h4]

/-- Witness for C2 at concrete inputs: `300` encodes to `[0xAC, 0x02]` and
round-trips, and five continuation bytes overflow. -/
theorem c2_witness :
    read_varint (encodeVarInt 300 ++ [9]) = .ok 300 [9] ∧
    read_varint [128, 129, 130, 131, 132] = .error .varIntTooBig := by
  constructor
  · exact (c2_varint_roundtrip_and_overflow.1 300 [9] (by norm_num)).1
  · exact c2_varint_roundtrip_and_overflow.2 128 129 130 131 132 []
      (by decide) (by decide) (by decide) (by decide) (by decide)

/-- C3 (amended): on `VarInt(3) || VarInt(0) || [0xAA, 0xBB]` the framer
returns `RawPacket{3, 0, [0xAA, 0xBB]}`; and for every successfully framed
packet whose declared length is at least the packet-id's encoded size,
`payload.length = size_in_bytes - id_size`.  (Without the no-underflow
proviso the invariant fails, see the counterexample.) -/
theorem c3_frame_integrity :
    next_packet [3, 0, 170, 187] = .ok ⟨3, 0, [170, 187]⟩ [] ∧
    ∀ (s s1 s2 rest : List Nat) (L id sz : Nat) (p : RawPacket),
      read_varint s = .ok L s1 →
      read_varint_and_get_size s1 = .ok (id, sz) s2 →
      sz ≤ L →
      next_packet s = .ok p rest →
      p.payload.length = p.size_in_bytes - sz := by
  constructor
  · decide
  · intro s s1 s2 rest L id sz p h1 h2 hsz hok
    have hL : L < 2 ^ 32 := read_varint_aux_lt s 0 0 L s1 h1
    simp only [next_packet, h1, h2] at hok
    have hmod : (L + 2 ^ 32 - sz) % 2 ^ 32 = L - sz := by omega
    rw [hmod] at hok
    by_cases hlen : L - sz ≤ s2.length
    · rw [show read_exact_bytes s2 (L - sz) =
            .ok (s2.take (L - sz)) (s2.drop (L - sz)) by
          rw [read_exact_bytes, if_pos hlen]] at hok
      injection hok with hp _
      rw [← hp]
      simp only [List.length_take]
      omega
    · rw [show read_exact_bytes s2 (L - sz) = .error .ioError by
          rw [read_exact_bytes, if_neg hlen]] at hok
      simp at hok

/-- Witness for C3 at a concrete input: the frame `VarInt(5) || VarInt(0) ||
4 payload bytes` satisfies the invariant. -/
theorem c3_witness :
    next_packet [5, 0, 1, 2, 3, 4] = .ok ⟨5, 0, [1, 2, 3, 4]⟩ [] ∧
    ([1, 2, 3, 4] : List Nat).length = 5 - 1 := by
  refine ⟨by decide, ?_⟩
  exact c3_frame_integrity.2 [5, 0, 1, 2, 3, 4] [0, 1, 2, 3, 4] [1, 2, 3, 4]
    [] 5 0 1 ⟨5, 0, [1, 2, 3, 4]⟩ (by decide) (by decide) (by decide)
    (by decide)

/-- Counterexample to C3 as stated: on the stream `VarInt(0) || [0x80, 0x00]
|| junk` (declared length 0, packet id 0 encoded non-canonically in 2 bytes)
the framer *succeeds* — the wrapped subtraction `0 - 2` reads
4294967294 payload bytes — and `payload.length` is not `size_in_bytes`
minus the id's encoded size (which is 2). -/
theorem c3_invariant_counterexample :
    next_packet (0 :: 128 :: 0 :: List.replicate 4294967294 0) =
      .ok ⟨0, 0, List.replicate 4294967294 0⟩ [] ∧
    read_varint_and_get_size (128 :: 0 :: List.replicate 4294967294 0) =
      .ok (0, 2) (List.replicate 4294967294 0) ∧
    (List.replicate 4294967294 (0 : Nat)).length ≠ 0 - 2 := by
  have h1 : ∀ t : List Nat, read_varint (0 :: t) = .ok 0 t := by
    intro t
    simp only [read_varint, read_varint_aux]
    rw [if_pos (by decide)]
    congr 1
  have h2 : ∀ t : List Nat,
      read_varint_and_get_size (128 :: 0 :: t) = .ok (0, 2) t := by
    intro t
    simp only [read_varint_and_get_size, read_varint_size_aux]
    rw [if_neg (by decide), if_neg (by decide : ¬ (0 : Nat) + 7 ≥ 32),
      if_pos (by decide)]
    congr 1
  have h4 : read_exact_bytes (List.replicate 4294967294 (0 : Nat)) 4294967294 =
      .ok (List.replicate 4294967294 0) [] := by
    simp only [read_exact_bytes, List.length_replicate, le_refl, if_true,
      List.take_replicate, List.drop_replicate, Nat.min_self, Nat.sub_self,
      List.replicate_zero]
  exact ⟨next_packet_ok _ _ _ 0 0 2 4294967294 _ _ (h1 _) (h2 _) (by norm_num)
    h4, h2 _, by rw [List.length_replicate]; decide⟩

/-- C4: the claim says `read_string` returns the invalid-UTF-8 error on
malformed input.  The code calls `.unwrap()` on `String::from_utf8`, so on
the stream `[0x01, 0xFF]` (length 1, invalid byte `0xFF`) it panics and in
particular never returns `ParsingError::InvalidUtf8`. -/
theorem c4_read_string_panics :
    read_string [1, 255] = .panicked ∧
    ∀ e : ParsingError, read_string [1, 255] ≠ .error e := by
  refine ⟨by decide, ?_⟩
  intro e h
  have hp : read_string [1, 255] = .panicked := by decide
  rw [hp] at h
  simp at h

/-- Witness for C4: in particular the invalid-UTF-8 error is not returned. -/
theorem c4_witness : read_string [1, 255] ≠ .error .invalidUtf8 :=
  c4_read_string_panics.2 .invalidUtf8

/-- C5: the claim says `read_bitset` reads a word count `L` and then `8 * L`
bytes.  The code reads `L` *bytes*: on `[0x01, 0xFF]` (L = 1 followed by a
single byte) it succeeds after consuming one byte and returns 8 booleans,
where the claim requires reading 8 bytes (and hence an EOF failure on this
input) and 64 booleans per word. -/
theorem c5_bitset_reads_bytes_not_words :
    read_bitset [1, 255] = .ok (List.replicate 8 true) [] ∧
    (List.replicate 8 true).length = 8 := by
  constructor <;> decide

/-- C6: the claim says `read_fixed_bitset(n)` reads `ceil(n / 8)` bytes, so
size 8 on the single input byte `0b10110010` should succeed with bits
1, 4, 5, 7 set.  The code reads `n` bytes: with size 8 it demands 8 bytes,
failing with EOF on the 1-byte stream, and on an 8-byte stream it returns
64 bits. -/
theorem c6_fixed_bitset_reads_n_bytes :
    read_fixed_bitset [178] 8 = .error .ioError ∧
    read_fixed_bitset (178 :: List.replicate 7 0) 8 =
      .ok (bitsOfByte 178 ++ List.replicate 56 false) [] ∧
    read_fixed_bitset [178] 1 =
      .ok [false, true, false, false, true, true, false, true] [] := by
  refine ⟨by decide, by decide, by decide⟩

/-- C7: registry initialisation is idempotent, and after initialisation from
the empty table every registered id (assuming no duplicate registrations, as
in the source's single `Handshake` registration) maps to its registered
handler while unregistered ids map to `none`. -/
theorem c7_registry_idempotent_lookup :
    ∀ (H : Type) (regs : List (Nat × H)),
      init_packet_processors regs (init_packet_processors regs []) =
        init_packet_processors regs [] ∧
      ((regs.map Prod.fst).Nodup →
        ∀ (id : Nat) (h : H), (id, h) ∈ regs →
          get_handler (init_packet_processors regs []) id = some h) ∧
      (∀ id : Nat, id ∉ regs.map Prod.fst →
        get_handler (init_packet_processors regs []) id = none) := by
  intro H regs
  refine ⟨?_, ?_, ?_⟩
  · rcases regs with _ | ⟨r, tl⟩
    · rfl
    · have hne : List.foldl (fun acc r => insertHandler acc r.1 r.2)
          (insertHandler [] r.1 r.2) tl ≠ [] :=
        foldl_insertHandler_ne_nil tl _ (insertHandler_ne_nil [] r.1 r.2)
      simp [init_packet_processors, List.isEmpty_iff, hne]
  · intro hnd id h hmem
    simp only [init_packet_processors, List.isEmpty_nil, if_true]
    exact get_foldl_mem regs [] id h hnd hmem
  · intro id hid
    simp only [init_packet_processors, List.isEmpty_nil, if_true]
    rw [get_foldl_not_mem regs [] id hid]
    rfl

/-- Witness for C7 with the source's registration set (Handshake = 0 with an
abstract handler tag): lookup of 0 finds it, lookup of 1 is absent. -/
theorem c7_witness :
    get_handler (init_packet_processors [(0, 42)] ([] : List (Nat × Nat))) 0 =
      some 42 ∧
    get_handler (init_packet_processors [(0, 42)] ([] : List (Nat × Nat))) 1 =
      none := by
  constructor
  · exact (c7_registry_idempotent_lookup Nat [(0, 42)]).2.1 (by simp) 0 42
      (by simp)
  · exact (c7_registry_idempotent_lookup Nat [(0, 42)]).2.2 1 (by simp)

/-- C8: the Connection Session stays in Reading after any successfully
framed packet — whether its id is unregistered or its handler fails — and
the next frame is still framed and dispatched; it transitions to Closed
exactly when framing returns an error. -/
theorem c8_session_isolation :
    ∀ (h : Handlers) (s : List Nat),
      (∀ (p : RawPacket) (rest : List Nat), next_packet s = .ok p rest →
        (session_step h (.Reading s)).1 = .Reading rest) ∧
      (∀ e, next_packet s = .error e →
        (session_step h (.Reading s)).1 = .Closed) ∧
      ((session_step h (.Reading s)).1 = .Closed →
        ∃ e, next_packet s = .error e) ∧
      (∀ (p p2 : RawPacket) (rest rest2 : List Nat),
        next_packet s = .ok p rest → next_packet rest = .ok p2 rest2 →
        (session_step h (session_step h (.Reading s)).1).1 =
          .Reading rest2) := by
  intro h s
  have hread : ∀ (t : List Nat) (p : RawPacket) (rest : List Nat),
      next_packet t = .ok p rest →
      (session_step h (.Reading t)).1 = .Reading rest := by
    intro t p rest hok
    rcases hh : h p.packet_id with _ | func
    · simp [session_step, hok, hh]
    · cases hf : func p <;> simp [session_step, hok, hh, hf]
  refine ⟨hread s, ?_, ?_, ?_⟩
  · intro e herr
    simp [session_step, herr]
  · intro hc
    cases hnp : next_packet s with
    | ok p rest =>
      exfalso
      rw [hread s p rest hnp] at hc
      simp at hc
    | error e => exact ⟨e, rfl⟩
    | panicked =>
      exfalso
      simp [session_step, hnp] at hc
  · intro p p2 rest rest2 h1 h2
    rw [hread s p rest h1]
    exact hread rest p2 rest2 h2

/-- Witness for C8: a handler that always fails leaves the session Reading
after the handshake-shaped frame, and a framing error closes the session. -/
theorem c8_witness :
    (session_step (fun _ => some (fun _ => Except.error "fail"))
        (.Reading [3, 0, 170, 187])).1 = .Reading [] ∧
    (session_step (fun _ => none) (.Reading [200])).1 = .Closed := by
  constructor
  · exact (c8_session_isolation (fun _ => some (fun _ => Except.error "fail"))
      [3, 0, 170, 187]).1 ⟨3, 0, [170, 187]⟩ [] (by decide)
  · exact (c8_session_isolation (fun _ => none) [200]).2.1 .ioError (by decide)

/-- C9: a second `accept` after the run-state flag is set is fatal, the flag
goes from false to true exactly once (`accept` is the only operation that
touches it and it never resets it), and starting a fresh server then calling
`accept` again hits the guard. -/
theorem c9_double_start_guard :
    ∀ (H : Type) (regs : List (Nat × H)) (ip : Nat × Nat × Nat × Nat)
      (port : Nat) (m m0 : List (Nat × H)),
      (∀ s : DollNetworkServer, s.is_running = true →
        DollNetworkServer.accept regs s m = .fatalAlreadyRunning) ∧
      (∀ (s s' : DollNetworkServer) (m' : List (Nat × H)),
        DollNetworkServer.accept regs s m = .accepting s' m' →
        s.is_running = false ∧ s'.is_running = true) ∧
      (∃ (s1 : DollNetworkServer) (m1 : List (Nat × H)),
        DollNetworkServer.accept regs (DollNetworkServer.new ip port) m0 =
          .accepting s1 m1 ∧
        DollNetworkServer.accept regs s1 m1 = .fatalAlreadyRunning) := by
  intro H regs ip port m m0
  refine ⟨?_, ?_, ?_⟩
  · intro s hs
    simp [DollNetworkServer.accept, hs]
  · intro s s' m' hacc
    unfold DollNetworkServer.accept at hacc
    by_cases hs : s.is_running
    · rw [if_pos hs] at hacc
      simp at hacc
    · rw [if_neg hs] at hacc
      injection hacc with h1 _
      refine ⟨by simpa using hs, ?_⟩
      rw [← h1]
  · refine ⟨⟨ip, port, true⟩, init_packet_processors regs m0, ?_, ?_⟩
    · simp [DollNetworkServer.accept, DollNetworkServer.new]
    · simp [DollNetworkServer.accept]

/-- Witness for C9: a concrete already-running server is rejected and a
fresh one starts. -/
theorem c9_witness :
    DollNetworkServer.accept [(0, 42)]
        ⟨(127, 0, 0, 1), 25565, true⟩ ([] : List (Nat × Nat)) =
      .fatalAlreadyRunning :=
  (c9_double_start_guard Nat [(0, 42)] (127, 0, 0, 1) 25565 [] []).1
    ⟨(127, 0, 0, 1), 25565, true⟩ rfl

/-- C10: the claim says `read_position` is total on streams with at least 8
bytes, all buffer accesses in bounds.  The code fills an 8-byte buffer and
then indexes `buffer[8..11]`: on *every* stream with at least 8 available
bytes it hits the out-of-bounds access and panics. -/
theorem c10_read_position_out_of_bounds :
    ∀ s : List Nat, 8 ≤ s.length → read_position s = .panicked := by
  intro s h
  rcases s with _ | ⟨b0, s⟩
  · simp at h
  rcases s with _ | ⟨b1, s⟩
  · simp at h
  rcases s with _ | ⟨b2, s⟩
  · simp at h
  rcases s with _ | ⟨b3, s⟩
  · simp at h
  rcases s with _ | ⟨b4, s⟩
  · simp at h
  rcases s with _ | ⟨b5, s⟩
  · simp at h
  rcases s with _ | ⟨b6, s⟩
  · simp at h
  rcases s with _ | ⟨b7, s⟩
  · simp at h
  rw [read_position, if_pos h]
  simp [List.take, List.get?, Option.bind]

/-- Witness for C10 at the all-zero 8-byte stream. -/
theorem c10_witness : read_position [0, 0, 0, 0, 0, 0, 0, 0] = .panicked :=
  c10_read_position_out_of_bounds [0, 0, 0, 0, 0, 0, 0, 0] (by decide)

end Dolls
